import Mathlib

/-!
Verification of the documentation view-model assembly pipeline of
`src/routes/package.js`.

The JavaScript source is shallowly embedded: JS strings are modelled as
Lean `String` (sequences of code points; every input exercised here is
ASCII, where JS UTF-16 indexing and code-point indexing agree), JS string
methods (`split`, `trim`, `trimLeft`, `slice`, `split(/\s+/)`) are
re-implemented as structurally recursive functions on `List Char`,
`encodeURIComponent` is implemented byte-for-byte (UTF-8 percent
encoding of every character outside the unreserved set), JS `Array.sort`
with a comparator is modelled by a stable sort (both V8's sort and
insertion sort are stable, hence agree on every consistent comparator),
and code paths that throw (`semver.rcompare` on an unparsable version,
a reference to an undeclared variable, a property access on `undefined`)
return `Except.error` values of type `JsError`.

Markdown rendering (`markdown.render` of the markdown-it instance) is an
external pure collaborator; every function that renders prose takes it
as an explicit `render : String → String` parameter.

The database module `#db/packages` is not part of the repository source
under verification; where a result of `packages.getPackageOverview` is
needed it is modelled from the spec as an `Option PackageOverview`
(spec §6: "not-found ⇒ signaled as absence, not an exception payload").
-/

/-! ### JS string primitives on `List Char` -/

/-- Whitespace test matching the characters the JS regex `\s` (and `trim`)
recognises on the ASCII inputs that occur here. -/
def isWsJS (c : Char) : Bool :=
  c == ' ' || c == '\t' || c == '\n' || c == '\r' || c == Char.ofNat 11 || c == Char.ofNat 12

/-- Does `l` start with the character sequence `sep`? -/
def startsWithSeq : List Char → List Char → Bool
  | [], _ => true
  | _ :: _, [] => false
  | a :: as, b :: bs => a == b && startsWithSeq as bs

/-- Does `sep` occur as a contiguous subsequence of `l`? -/
def containsSeq (sep : List Char) : List Char → Bool
  | [] => startsWithSeq sep []
  | c :: rest => startsWithSeq sep (c :: rest) || containsSeq sep rest

/-- Fuel-driven worker for `splitOnL`.  A fuel of `l.length` is always
sufficient for a non-empty separator, because every step consumes at
least one character. -/
def splitOnAux (sep : List Char) : Nat → List Char → List Char → List (List Char)
  | _, [], acc => [acc.reverse]
  | 0, l, acc => [acc.reverse ++ l]
  | fuel + 1, c :: rest, acc =>
    if startsWithSeq sep (c :: rest) then
      acc.reverse :: splitOnAux sep fuel (List.drop sep.length (c :: rest)) []
    else
      splitOnAux sep fuel rest (c :: acc)

/-- JS `String.prototype.split` with a non-empty string separator:
split on every non-overlapping occurrence, left to right.  Always
returns at least one (possibly empty) segment. -/
def splitOnL (sep l : List Char) : List (List Char) :=
  splitOnAux sep l.length l []

/-- JS `trimLeft()`. -/
def trimLeftL (l : List Char) : List Char :=
  l.dropWhile isWsJS

/-- JS `trim()`. -/
def trimL (l : List Char) : List Char :=
  ((l.dropWhile isWsJS).reverse.dropWhile isWsJS).reverse

/-- Worker for `splitWsL`.  `acc` holds the (reversed) token read so
far, `inWs` records whether a whitespace run is in progress. -/
def splitWsAux : List Char → List Char → Bool → List (List Char)
  | [], acc, inWs => if inWs then [acc.reverse, []] else [acc.reverse]
  | c :: rest, acc, inWs =>
    if isWsJS c then splitWsAux rest acc true
    else if inWs then acc.reverse :: splitWsAux rest [c] false
    else splitWsAux rest (c :: acc) false

/-- JS `split(/\s+/)`: split on maximal whitespace runs.  On the empty
string it returns `[""]`, a leading run yields a leading empty segment
and a trailing run a trailing empty segment, exactly as in JS. -/
def splitWsL (l : List Char) : List (List Char) :=
  splitWsAux l [] false

/-- Break a list at the first occurrence of character `c`; the second
component is `none` when `c` does not occur. -/
def breakAtChar (c : Char) : List Char → List Char × Option (List Char)
  | [] => ([], none)
  | x :: xs =>
    if x == c then ([], some xs)
    else
      let r := breakAtChar c xs
      (x :: r.1, r.2)

/-! ### `encodeURIComponent` -/

/-- Characters `encodeURIComponent` leaves unescaped besides the
alphanumerics. -/
def unreservedMarks : List Char := ['-', '_', '.', '!', '~', '*', Char.ofNat 39, '(', ')']

/-- Unreserved character test of `encodeURIComponent`. -/
def isUnreservedChar (c : Char) : Bool :=
  ('A' ≤ c && c ≤ 'Z') || ('a' ≤ c && c ≤ 'z') || ('0' ≤ c && c ≤ '9') || unreservedMarks.contains c

/-- Uppercase hexadecimal digit. -/
def hexDigitChar (n : Nat) : Char :=
  if n < 10 then Char.ofNat (48 + n) else Char.ofNat (55 + n)

/-- UTF-8 bytes of a code point (the encoding `encodeURIComponent`
escapes with). -/
def utf8Bytes (c : Char) : List Nat :=
  let n := c.toNat
  if n < 128 then [n]
  else if n < 2048 then [192 + n / 64, 128 + n % 64]
  else if n < 65536 then [224 + n / 4096, 128 + (n / 64) % 64, 128 + n % 64]
  else [240 + n / 262144, 128 + (n / 4096) % 64, 128 + (n / 64) % 64, 128 + n % 64]

/-- Percent-escape of one byte, `%XX` with uppercase hex. -/
def percentByte (b : Nat) : List Char :=
  ['%', hexDigitChar (b / 16), hexDigitChar (b % 16)]

/-- JS `encodeURIComponent`: keep unreserved characters, percent-encode
the UTF-8 bytes of every other character. -/
def encodeURIComponent (s : String) : String :=
  String.mk (s.data.flatMap fun c =>
    if isUnreservedChar c then [c] else (utf8Bytes c).flatMap percentByte)

/-! ### Errors thrown by the JS code -/

/-- Exceptions the embedded code can throw: a reference to an
undeclared variable, a property access on `undefined`, and the
`TypeError: Invalid Version` thrown by `semver` comparison functions. -/
inductive JsError where
  | referenceError (name : String)
  | typeError (prop : String)
  | invalidVersion
deriving DecidableEq, Repr

/-! ### Semantic versions (the `semver` package, as used by `rcompare`) -/

/-- Prerelease identifier: numeric, or alphanumeric kept as its
character sequence. -/
inductive PreId where
  | num (n : Nat)
  | alpha (chars : List Char)
deriving DecidableEq, Repr

/-- Parsed semantic version.  Build metadata is dropped (it never
participates in precedence). -/
structure Semver where
  major : Nat
  minor : Nat
  patch : Nat
  prerelease : List PreId
deriving DecidableEq, Repr

/-- ASCII digit test. -/
def isDigitChar (c : Char) : Bool := '0' ≤ c && c ≤ '9'

/-- ASCII letter test. -/
def isAlphaChar (c : Char) : Bool := ('a' ≤ c && c ≤ 'z') || ('A' ≤ c && c ≤ 'Z')

/-- Characters allowed in semver prerelease/build identifiers. -/
def isIdentChar (c : Char) : Bool := isDigitChar c || isAlphaChar c || c == '-'

/-- Decimal value of a digit sequence. -/
def digitsToNat (l : List Char) : Nat :=
  l.foldl (fun acc c => acc * 10 + (c.toNat - 48)) 0

/-- Strict semver numeric identifier: non-empty digits without a
leading zero (except `0` itself). -/
def isNumericIdent (l : List Char) : Bool :=
  !l.isEmpty && l.all isDigitChar && (l.head? != some '0' || l.length == 1)

/-- Parse one prerelease identifier (numeric identifiers must not have
leading zeros; alphanumeric identifiers draw on `[0-9A-Za-z-]`). -/
def parsePreIdent (l : List Char) : Option PreId :=
  if l.isEmpty then none
  else if l.all isDigitChar then
    if isNumericIdent l then some (PreId.num (digitsToNat l)) else none
  else if l.all isIdentChar then some (PreId.alpha l)
  else none

/-- Parse a dot-split prerelease identifier list. -/
def parsePrerelease : List (List Char) → Option (List PreId)
  | [] => some []
  | i :: is =>
    match parsePreIdent i, parsePrerelease is with
    | some x, some xs => some (x :: xs)
    | _, _ => none

/-- Build-metadata identifier check: non-empty over `[0-9A-Za-z-]`. -/
def buildIdentOk (l : List Char) : Bool :=
  !l.isEmpty && l.all isIdentChar

/-- Strict parse of a semver string, as `new SemVer(v)` does before any
comparison: optional leading `v`, `major.minor.patch` with numeric
identifiers, optional `-prerelease`, optional `+build` (validated,
then ignored).  Surrounding whitespace is trimmed as in `semver`.
The `MAX_SAFE_INTEGER` magnitude cap of the JS library is not modelled
(`Nat` is unbounded); no claim here exercises it. -/
def parseSemver (s : String) : Option Semver :=
  let cs := trimL s.data
  let cs := match cs with
    | 'v' :: rest => rest
    | other => other
  let afterBuild := breakAtChar '+' cs
  let buildOk := match afterBuild.2 with
    | none => true
    | some b => (splitOnL ['.'] b).all buildIdentOk
  let afterPre := breakAtChar '-' afterBuild.1
  match splitOnL ['.'] afterPre.1 with
  | [ma, mi, pa] =>
    if isNumericIdent ma && isNumericIdent mi && isNumericIdent pa && buildOk then
      match afterPre.2 with
      | none => some ⟨digitsToNat ma, digitsToNat mi, digitsToNat pa, []⟩
      | some p =>
        match parsePrerelease (splitOnL ['.'] p) with
        | some ids => some ⟨digitsToNat ma, digitsToNat mi, digitsToNat pa, ids⟩
        | none => none
    else none
  | _ => none

/-- Comparison key of one prerelease identifier: every numeric
identifier precedes every alphanumeric one; numerics compare by value,
alphanumerics by code-point order. -/
abbrev PreIdKey : Type := Nat ⊕ₗ List Char

/-- Comparison key of a prerelease list: a version without prerelease
identifiers (`⊤`) has higher precedence than any prerelease version;
prerelease lists compare lexicographically, a strict prefix first. -/
abbrev PreKey : Type := WithTop (List PreIdKey)

/-- Full semver precedence key: major, minor, patch, prerelease,
lexicographically. -/
abbrev SemKey : Type := Nat ×ₗ (Nat ×ₗ (Nat ×ₗ PreKey))

/-- Key of one prerelease identifier. -/
def PreId.key : PreId → PreIdKey
  | .num n => toLex (Sum.inl n)
  | .alpha cs => toLex (Sum.inr cs)

/-- Precedence key of a parsed version. -/
def Semver.key (v : Semver) : SemKey :=
  toLex (v.major, toLex (v.minor, toLex (v.patch,
    (match v.prerelease with
     | [] => (⊤ : PreKey)
     | ids => ((ids.map PreId.key : List PreIdKey) : PreKey)))))

/-- Precedence key of a version string; unparsable strings get a dummy
key, but every code path that would compare an unparsable string throws
before the key is consulted. -/
def semverKey (s : String) : SemKey :=
  match parseSemver s with
  | some v => v.key
  | none => Semver.key ⟨0, 0, 0, [PreId.num 0]⟩

/-- Semver precedence order on version strings (`a` has lower-or-equal
precedence than `b`). -/
def semverLe (a b : String) : Prop := semverKey a ≤ semverKey b

/-- Sort relation realised by `sort(semver.rcompare)`: `a` is placed
before `b` exactly when `rcompare a b ≤ 0`, i.e. descending precedence. -/
def rcompareLe (a b : String) : Prop := semverKey b ≤ semverKey a

instance : DecidableRel rcompareLe :=
  fun a b => inferInstanceAs (Decidable (semverKey b ≤ semverKey a))

instance : IsTotal String rcompareLe :=
  ⟨fun a b => le_total (semverKey b) (semverKey a)⟩

instance : IsTrans String rcompareLe :=
  ⟨fun _ _ _ hab hbc => le_trans hbc hab⟩

/-- The expression `versionsOfPackage.sort(semver.rcompare)[0]` of the
`/:package` route.  A one-element array is returned unchanged (the
comparator is never invoked); with two or more elements every element
reaches the comparator, so one unparsable version string makes
`semver.rcompare` throw `TypeError: Invalid Version`.  When all parse,
`sort` is a stable sort by descending precedence and `[0]` is its head. -/
def latestVersion (versions : List String) : Except JsError String :=
  if versions.length ≤ 1 then
    match versions with
    | [] => Except.error (JsError.typeError "undefined version")
    | v :: _ => Except.ok v
  else if versions.all (fun v => (parseSemver v).isSome) then
    Except.ok ((versions.insertionSort rcompareLe).headI)
  else
    Except.error JsError.invalidVersion

/-! ### Module documentation model (`prepareModuleDocumentation`) -/

/-- A record of the `values` or `binops` symbol table. -/
structure ValueRec where
  name : String
  comment : String
  type : String
deriving DecidableEq, Repr

/-- A record of the `unions` symbol table (`args`/`tags` are passed
through opaquely by the JS code). -/
structure UnionRec where
  name : String
  comment : String
  args : List String
  tags : List (String × List String)
deriving DecidableEq, Repr

/-- A record of the `aliases` symbol table. -/
structure AliasRec where
  name : String
  comment : String
  args : List String
  type : String
deriving DecidableEq, Repr

/-- One entry of the parsed `docs` JSON: a module's name, raw comment
and four symbol tables. -/
structure ModuleInfo where
  name : String
  comment : String
  values : List ValueRec
  binops : List ValueRec
  unions : List UnionRec
  aliases : List AliasRec
deriving DecidableEq, Repr

/-- An element of the array `prepareModuleDocumentation` returns.  The
first five constructors mirror the JS constructor functions `Markdown`,
`Value`, `Binop`, `Union`, `Alias` (comments already rendered);
`undef` is the JS value `undefined` that `constructValue` returns when
no table contains the requested name — it becomes an element of the
array, a hole in the node sequence. -/
inductive DocNode where
  | Markdown (html : String)
  | Value (name : String) (comment : String) (type : String)
  | Binop (name : String) (comment : String) (type : String)
  | Union (name : String) (comment : String) (args : List String) (tags : List (String × List String))
  | Alias (name : String) (comment : String) (args : List String) (type : String)
  | undef
deriving DecidableEq, Repr

/-- Is this entry a prose node? -/
def DocNode.isProse : DocNode → Bool
  | .Markdown _ => true
  | _ => false

/-- Is this entry a symbol node (one of the four tagged record shapes)? -/
def DocNode.isSymbolNode : DocNode → Bool
  | .Value _ _ _ => true
  | .Binop _ _ _ => true
  | .Union _ _ _ _ => true
  | .Alias _ _ _ _ => true
  | _ => false

/-- JS `findByName(list, name)`: `list.find((e) => e.name === name)`,
with the `name` field accessed through `nameOf`. -/
def findByName (nameOf : α → String) (list : List α) (name : String) : Option α :=
  list.find? fun e => nameOf e == name

/-- JS `constructValue(moduleInfo, name)`: search `values`, `binops`,
`unions`, `aliases` in that order; build the tagged node of the first
record whose `name` matches, rendering its comment; fall through to
`undefined` when no table matches. -/
def constructValue (render : String → String) (moduleInfo : ModuleInfo) (name : String) : DocNode :=
  match findByName (fun e => e.name) moduleInfo.values name with
  | some data => DocNode.Value name (render data.comment) data.type
  | none =>
    match findByName (fun e => e.name) moduleInfo.binops name with
    | some data => DocNode.Binop name (render data.comment) data.type
    | none =>
      match findByName (fun e => e.name) moduleInfo.unions name with
      | some data => DocNode.Union name (render data.comment) data.args data.tags
      | none =>
        match findByName (fun e => e.name) moduleInfo.aliases name with
        | some data => DocNode.Alias name (render data.comment) data.args data.type
        | none => DocNode.undef

/-- The body of the inner `flatMap` of `prepareModuleDocumentation`:
trim the comma-separated sub-block, split it on whitespace runs, look
the first word up, and append the remainder of the sub-block (sliced
off the left-trimmed block after the first word) as extra prose when
more than one word is present.  The `[]` guard mirrors the dead JS
check `words.length === 0` (`split(/\s+/)` never returns an empty
array). -/
def processSubBlock (render : String → String) (moduleInfo : ModuleInfo) (block : List Char) : List DocNode :=
  match splitWsL (trimL block) with
  | [] => []
  | firstWord :: restWords =>
    let part := constructValue render moduleInfo (String.mk firstWord)
    if restWords.isEmpty then [part]
    else [part, DocNode.Markdown (render (String.mk ((trimLeftL block).drop firstWord.length)))]

/-- The delimiter `"\n@docs"` the raw comment is split on. -/
def docsSep : List Char := "\n@docs".data

/-- JS `prepareModuleDocumentation(moduleInfo)`: split the raw comment
on `"\n@docs"`, render the first segment as the intro prose node, split
every later segment on commas and process each sub-block.  The `[]`
branch mirrors the dead JS check `docSplit.length === 0` (JS `split`
always returns a non-empty array; the JS code would return `""` there). -/
def prepareModuleDocumentation (render : String → String) (moduleInfo : ModuleInfo) : List DocNode :=
  match splitOnL docsSep moduleInfo.comment.data with
  | [] => []
  | intro :: blocks =>
    DocNode.Markdown (render (String.mk intro))
      :: (blocks.flatMap fun p => splitOnL [','] p).flatMap (processSubBlock render moduleInfo)

/-! ### Module index normalization -/

/-- The `exposed-modules` metadata field: a flat array of module names,
or an object mapping group names to arrays of module names (modelled as
an association list in insertion order, the order `Object.entries`
iterates string keys in). -/
inductive ExposedModules where
  | flat (modules : List String)
  | grouped (groups : List (String × List String))
deriving DecidableEq, Repr

/-- JS `prepareModuleForView` result: a module name with its link. -/
structure ModuleLink where
  name : String
  link : String
deriving DecidableEq, Repr

/-- JS `prepareModuleForView(packageName, version, moduleName)`. -/
def prepareModuleForView (packageName version moduleName : String) : ModuleLink :=
  { name := moduleName
    link := "/package/" ++ encodeURIComponent packageName ++ "/version/"
      ++ encodeURIComponent version ++ "/module/" ++ encodeURIComponent moduleName }

/-- JS `prepareExposedModulesView(packageName, version, metadataObj)`:
wrap a flat array into the single group keyed `""`, then map every
group's module names to `ModuleLink`s, preserving group order and
in-group order. -/
def prepareExposedModulesView (packageName version : String) (exposedModules : ExposedModules) :
    List (String × List ModuleLink) :=
  let groups := match exposedModules with
    | .flat modules => [("", modules)]
    | .grouped gs => gs
  groups.map fun g => (g.1, g.2.map fun moduleName => prepareModuleForView packageName version moduleName)

/-- JS `packageOverviewLink(packageName, version)`. -/
def packageOverviewLink (packageName version : String) : String :=
  "/package/" ++ encodeURIComponent packageName ++ "/version/"
    ++ encodeURIComponent version ++ "/overview"

/-! ### Route handlers -/

/-- Modelled from the spec: the row `packages.getPackageOverview`
resolves to (the `#db/packages` module is not part of this repository's
source).  Spec §6: `getPackageOverview(packageName, version) ->
{name, version, readme, metadata, docs}`, with not-found signalled as
absence — the handlers therefore receive an `Option PackageOverview`.
`metadata` and `docs` stand for the already `JSON.parse`d payloads. -/
structure PackageOverview where
  name : String
  version : String
  readme : String
  metadata : ExposedModules
  docs : List ModuleInfo
deriving DecidableEq, Repr

/-- Fields handed to the `views.packageOverview` template. -/
structure OverviewPagePayload where
  packageName : String
  packageVersion : String
  packageOverviewLink : String
  readme : String
  exposedModules : List (String × List ModuleLink)
deriving DecidableEq, Repr

/-- Fields handed to the `views.packageModule` template. -/
structure ModulePagePayload where
  packageName : String
  packageVersion : String
  packageOverviewLink : String
  moduleName : String
  moduleDocs : List DocNode
  exposedModules : List (String × List ModuleLink)
deriving DecidableEq, Repr

/-- Outcome of the `/:package` route: a 404 or a 303 redirect. -/
inductive PackageRouteResult where
  | notFound
  | redirect303 (location : String)
deriving DecidableEq, Repr

/-- Outcome of the module route: a 404 or a rendered module page. -/
inductive ModuleRouteResult where
  | notFound
  | page (payload : ModulePagePayload)
deriving DecidableEq, Repr

/-- The `/:package` route handler: map version rows to version strings,
answer 404 on an empty list, otherwise redirect (303) to the overview
of the latest version, percent-encoding both path segments. -/
def packageRoute (packageName : String) (versionsOfPackage : List String) :
    Except JsError PackageRouteResult :=
  if versionsOfPackage.isEmpty then Except.ok PackageRouteResult.notFound
  else
    (latestVersion versionsOfPackage).map fun latest =>
      PackageRouteResult.redirect303
        ("/package/" ++ encodeURIComponent packageName ++ "/version/"
          ++ encodeURIComponent latest ++ "/overview")

/-- The `/:package/version/:version/overview` route handler up to the
`views.render` call.  The JS code dereferences
`packageInfo.readme` without any absence check, so a missing overview
row throws a `TypeError` instead of producing a 404. -/
def overviewRoute (render : String → String) (packageName version : String)
    (packageInfo : Option PackageOverview) : Except JsError OverviewPagePayload :=
  match packageInfo with
  | none => Except.error (JsError.typeError "readme")
  | some info =>
    Except.ok
      { packageName := info.name
        packageVersion := info.version
        packageOverviewLink := packageOverviewLink packageName version
        readme := render info.readme
        exposedModules := prepareExposedModulesView packageName version info.metadata }

/-- The `/:package/version/:version/module/:module` route handler: a
missing overview row crashes on the `packageInfo.docs` access (same
defect as the overview route); a present row whose docs list lacks the
requested module name yields the 404 branch; otherwise the module page
payload is assembled. -/
def moduleRoute (render : String → String) (packageName version moduleName : String)
    (packageInfo : Option PackageOverview) : Except JsError ModuleRouteResult :=
  match packageInfo with
  | none => Except.error (JsError.typeError "docs")
  | some info =>
    match info.docs.find? (fun mod => mod.name == moduleName) with
    | none => Except.ok ModuleRouteResult.notFound
    | some moduleInfo =>
      Except.ok (ModuleRouteResult.page
        { packageName := packageName
          packageVersion := version
          packageOverviewLink := packageOverviewLink packageName version
          moduleName := moduleName
          moduleDocs := prepareModuleDocumentation render moduleInfo
          exposedModules := prepareExposedModulesView packageName version info.metadata })

/-! ### The overview route's content-negotiation callbacks

The overview handler passes `views.render` three shaping callbacks.
The `html` callback reads only identifiers declared in its scope chain,
but the `json` callback returns `docs` and the `text` callback returns
`docs.readme` — and no binding named `docs` exists in the overview
handler or at module scope (`docs` is a `const` local to the *module*
route handler).  Evaluating either callback therefore throws a
`ReferenceError`.  The scope chain is embedded explicitly so that the
failure is derived from the declared names rather than asserted. -/

/-- Identifiers bound at module scope of `src/routes/package.js`
(imports, `router`, `markdown`, and the hoisted function declarations). -/
def moduleScopeNames : List String :=
  ["Router", "semver", "MarkdownIt", "views", "packages", "router", "markdown",
   "packageOverviewLink", "prepareExposedModulesView", "prepareModuleForView",
   "prepareModuleDocumentation", "Markdown", "Value", "Binop", "Union", "Alias",
   "constructValue", "findByName"]

/-- Scope chain visible inside the overview route handler's callbacks:
the handler's parameters and `const` locals, then module scope. -/
def overviewHandlerScope : List String :=
  ["ctx", "next", "packageName", "version", "packageInfo",
   "renderedMarkdown", "metadataObj", "exposedModules"] ++ moduleScopeNames

/-- Evaluate a variable reference against a scope chain: an undeclared
name throws `ReferenceError`. -/
def lookupIdentifier (scope : List String) (name : String) : Except JsError Unit :=
  if scope.contains name then Except.ok () else Except.error (JsError.referenceError name)

/-- The overview route's `json` callback, `() => { return docs; }`:
evaluate the reference `docs`. -/
def overviewJsonShaper : Except JsError Unit :=
  lookupIdentifier overviewHandlerScope "docs"

/-- The overview route's `text` callback, `() => docs.readme`: evaluate
the reference `docs` (the `.readme` access is never reached). -/
def overviewTextShaper : Except JsError Unit :=
  lookupIdentifier overviewHandlerScope "docs"

/-! ### Spec-side resolver for the refinement claim C7 -/

/-- Name field of a documentation node (empty for prose and holes). -/
def nodeName : DocNode → String
  | .Markdown _ => ""
  | .Value n _ _ => n
  | .Binop n _ _ => n
  | .Union n _ _ _ => n
  | .Alias n _ _ _ => n
  | .undef => ""

/-- SymbolResolver written from the spec's words (§4.4): lay the four
tables out in the fixed order `values, binops, unions, aliases` as
already-tagged nodes and return the first whose `name` field equals the
query exactly (case-sensitive, no trimming); "not found" yields no
node (the `undefined` hole). -/
def symbolResolverSpec (render : String → String) (m : ModuleInfo) (name : String) : DocNode :=
  let searchList : List DocNode :=
    m.values.map (fun d => DocNode.Value d.name (render d.comment) d.type)
    ++ m.binops.map (fun d => DocNode.Binop d.name (render d.comment) d.type)
    ++ m.unions.map (fun d => DocNode.Union d.name (render d.comment) d.args d.tags)
    ++ m.aliases.map (fun d => DocNode.Alias d.name (render d.comment) d.args d.type)
  match searchList.find? (fun n => nodeName n == name) with
  | some node => node
  | none => DocNode.undef

/-- Does the name miss all four symbol tables? -/
def unresolvedIn (m : ModuleInfo) (name : String) : Bool :=
  (findByName (fun e => e.name) m.values name).isNone
  && (findByName (fun e => e.name) m.binops name).isNone
  && (findByName (fun e => e.name) m.unions name).isNone
  && (findByName (fun e => e.name) m.aliases name).isNone

/-! ### Concrete fixtures -/

/-- Module fixture of spec §8: `foo`, `bar`, `baz` all in `values`,
with the raw comment of the DocCommentParser example. -/
def fooBarBazModule : ModuleInfo :=
  { name := "Test"
    comment := "Intro text.\n@docs foo\nMore text.\n@docs bar, baz"
    values := [⟨"foo", "foo comment", "Int"⟩, ⟨"bar", "bar comment", "Int"⟩,
               ⟨"baz", "baz comment", "Int"⟩]
    binops := []
    unions := []
    aliases := [] }

/-- Module fixture whose `values` and `binops` tables both contain the
name `both`. -/
def dupModule : ModuleInfo :=
  { name := "Dup"
    comment := ""
    values := [⟨"both", "from values", "VType"⟩]
    binops := [⟨"both", "from binops", "BType"⟩]
    unions := []
    aliases := [] }

/-- Module fixture whose comment contains no `"\n@docs"` delimiter. -/
def plainModule : ModuleInfo :=
  { name := "Plain"
    comment := "just prose, no directives"
    values := []
    binops := []
    unions := []
    aliases := [] }

/-- Overview-row fixture for the module-route 404 witness. -/
def samplePackage : PackageOverview :=
  { name := "owner/pkg"
    version := "1.0.0"
    readme := "hello readme"
    metadata := ExposedModules.flat ["Test"]
    docs := [fooBarBazModule] }

/-! ### Helper lemmas -/

/-- `splitOnAux` never returns the empty list. -/
theorem splitOnAux_ne_nil (sep : List Char) (fuel : Nat) (l acc : List Char) :
    splitOnAux sep fuel l acc ≠ [] := by
  induction fuel generalizing l acc with
  | zero => cases l <;> simp [splitOnAux]
  | succ n ih =>
    cases l with
    | nil => simp [splitOnAux]
    | cons c rest =>
      simp only [splitOnAux]
      split
      · simp
      · exact ih rest (c :: acc)

/-- JS `split` always returns at least one segment. -/
theorem splitOnL_ne_nil (sep l : List Char) : splitOnL sep l ≠ [] :=
  splitOnAux_ne_nil sep l.length l []

/-- When the separator does not occur, `splitOnAux` returns the single
segment consisting of the accumulator and the remaining input. -/
theorem splitOnAux_no_occurrence (sep : List Char) :
    ∀ l : List Char, containsSeq sep l = false →
      ∀ (fuel : Nat) (acc : List Char), splitOnAux sep fuel l acc = [acc.reverse ++ l] := by
  intro l
  induction l with
  | nil =>
    intro _ fuel acc
    cases fuel <;> simp [splitOnAux]
  | cons c rest ih =>
    intro hocc fuel acc
    rw [containsSeq, Bool.or_eq_false_iff] at hocc
    cases fuel with
    | zero => simp [splitOnAux]
    | succ n =>
      rw [splitOnAux, if_neg (by simp [hocc.1])]
      rw [ih hocc.2 n (c :: acc)]
      simp

/-- `splitWsAux` never returns the empty list. -/
theorem splitWsAux_ne_nil : ∀ (l acc : List Char) (inWs : Bool), splitWsAux l acc inWs ≠ [] := by
  intro l
  induction l with
  | nil => intro acc inWs; cases inWs <;> simp [splitWsAux]
  | cons c rest ih =>
    intro acc inWs
    simp only [splitWsAux]
    split
    · exact ih acc true
    · split
      · simp
      · exact ih (c :: acc) false

/-- `constructValue` never produces a prose node. -/
theorem constructValue_not_prose (render : String → String) (m : ModuleInfo) (name : String) :
    (constructValue render m name).isProse = false := by
  unfold constructValue
  cases findByName (fun e => e.name) m.values name with
  | some d => rfl
  | none =>
    cases findByName (fun e => e.name) m.binops name with
    | some d => rfl
    | none =>
      cases findByName (fun e => e.name) m.unions name with
      | some d => rfl
      | none =>
        cases findByName (fun e => e.name) m.aliases name with
        | some d => rfl
        | none => rfl

/-- When the name misses all four tables, `constructValue` falls through
to the JS `undefined`. -/
theorem constructValue_unresolved (render : String → String) (m : ModuleInfo) (name : String)
    (h : unresolvedIn m name = true) : constructValue render m name = DocNode.undef := by
  simp only [unresolvedIn, Bool.and_eq_true, Option.isNone_iff_eq_none] at h
  obtain ⟨⟨⟨h1, h2⟩, h3⟩, h4⟩ := h
  simp [constructValue, h1, h2, h3, h4]

/-- Every sub-block contributes one or two entries, the first of which
is the `constructValue` result for the sub-block's first word. -/
theorem processSubBlock_shape (render : String → String) (m : ModuleInfo) (block : List Char) :
    ∃ w ws, splitWsL (trimL block) = w :: ws ∧
      (processSubBlock render m block = [constructValue render m (String.mk w)]
       ∨ processSubBlock render m block
          = [constructValue render m (String.mk w),
             DocNode.Markdown (render (String.mk ((trimLeftL block).drop w.length)))]) := by
  cases hs : splitWsL (trimL block) with
  | nil => exact absurd hs (splitWsAux_ne_nil _ _ _)
  | cons w ws =>
    refine ⟨w, ws, rfl, ?_⟩
    cases hws : ws.isEmpty with
    | true => left; simp [processSubBlock, hs, hws]
    | false => right; simp [processSubBlock, hs, hws]

/-- `find?` over a tagged `map`, stated for a name-preserving tagging
function. -/
theorem find?_map_nodeName (f : α → DocNode) (nm : α → String)
    (hf : ∀ a, nodeName (f a) = nm a) (l : List α) (name : String) :
    (l.map f).find? (fun n => nodeName n == name)
      = (l.find? fun a => nm a == name).map f := by
  induction l with
  | nil => rfl
  | cons a as ih =>
    simp only [List.map_cons, List.find?]
    rw [hf a]
    cases h : nm a == name
    · simpa [h] using ih
    · simp [h]

/-! ### Claim theorems -/

/-- Claim C1: the overview route's structured-data (`json`) and
plain-text (`text`) shaping callbacks are claimed to return the
package-overview records resp. the readme text; in the code both
callbacks evaluate the identifier `docs`, which is not declared
anywhere in their scope chain, so each of them throws a
`ReferenceError` instead of returning a value (the `html` callback is
the only one that succeeds). -/
theorem overview_structured_text_shapers_throw :
    overviewJsonShaper = Except.error (JsError.referenceError "docs")
    ∧ overviewTextShaper = Except.error (JsError.referenceError "docs") :=
  ⟨rfl, rfl⟩

/-- Claim C2: for every non-empty list of version strings that all
parse as semantic versions, the version `sort(semver.rcompare)[0]`
selects is a member of the list and has precedence greater than or
equal to every member; on `["1.0.0", "2.0.0", "1.5.3"]` it selects
`"2.0.0"`. -/
theorem latest_version_maximal :
    (∀ versions : List String, versions ≠ [] →
      (∀ v ∈ versions, (parseSemver v).isSome = true) →
      ∃ latest, latestVersion versions = Except.ok latest ∧ latest ∈ versions
        ∧ ∀ w ∈ versions, semverLe w latest)
    ∧ latestVersion ["1.0.0", "2.0.0", "1.5.3"] = Except.ok "2.0.0" := by
  constructor
  · intro versions hne hall
    obtain _ | ⟨v, vs⟩ := versions
    · exact absurd rfl hne
    obtain _ | ⟨v2, vs2⟩ := vs
    · refine ⟨v, rfl, List.mem_singleton.mpr rfl, ?_⟩
      intro w hw
      rw [List.mem_singleton] at hw
      subst hw
      exact le_refl (semverKey w)
    · have hall2 : (v :: v2 :: vs2).all (fun s => (parseSemver s).isSome) = true :=
        List.all_eq_true.mpr hall
      have hlen : ¬ (v :: v2 :: vs2).length ≤ 1 := by
        simp only [List.length_cons]
        omega
      have hlv : latestVersion (v :: v2 :: vs2)
          = Except.ok (((v :: v2 :: vs2).insertionSort rcompareLe).headI) := by
        simp [latestVersion, hlen, hall2]
      have hperm := List.perm_insertionSort rcompareLe (v :: v2 :: vs2)
      have hsorted := List.sorted_insertionSort rcompareLe (v :: v2 :: vs2)
      cases hs : (v :: v2 :: vs2).insertionSort rcompareLe with
      | nil =>
        rw [hs] at hperm
        simpa using List.perm_nil.mp hperm.symm
      | cons h t =>
        refine ⟨h, ?_, ?_, ?_⟩
        · rw [hlv, hs]
          rfl
        · have hmem : h ∈ (v :: v2 :: vs2).insertionSort rcompareLe := by
            rw [hs]; exact List.mem_cons_self h t
          exact (List.mem_insertionSort rcompareLe).mp hmem
        · intro w hw
          have hw2 : w ∈ h :: t := by
            rw [← hs]
            exact (List.mem_insertionSort rcompareLe).mpr hw
          rcases List.mem_cons.mp hw2 with rfl | hwt
          · exact le_refl (semverKey w)
          · rw [hs] at hsorted
            exact (List.pairwise_cons.mp hsorted).1 w hwt
  · rfl

/-- Claim C2 witness: the general theorem applied to the concrete list
`["1.0.0", "2.0.0", "1.5.3"]`. -/
theorem latest_version_maximal_witness :
    ∃ latest, latestVersion ["1.0.0", "2.0.0", "1.5.3"] = Except.ok latest
      ∧ latest ∈ ["1.0.0", "2.0.0", "1.5.3"]
      ∧ ∀ w ∈ ["1.0.0", "2.0.0", "1.5.3"], semverLe w latest :=
  latest_version_maximal.1 ["1.0.0", "2.0.0", "1.5.3"] (by decide) (by decide)

/-- Claim C3 counterexample: a package+version pair whose overview row
is absent does not produce a 404 — the overview handler dereferences
`packageInfo.readme` on `undefined` and throws a `TypeError`, a crash
the routing layer surfaces as a 500. -/
theorem overview_missing_row_crashes :
    overviewRoute (fun s => s) "owner/pkg" "9.9.9" none
      = Except.error (JsError.typeError "readme") := rfl

/-- Claim C3 amended: a package with zero versions and a module name
absent from the parsed docs list each produce the distinct not-found
result (HTTP 404) with no partial payload; but a package+version with
no stored overview row crashes with a `TypeError` instead of producing
a 404. -/
theorem not_found_handling :
    (∀ packageName, packageRoute packageName [] = Except.ok PackageRouteResult.notFound)
    ∧ (∀ (render : String → String) (packageName version moduleName : String)
        (info : PackageOverview),
        info.docs.find? (fun mod => mod.name == moduleName) = none →
        moduleRoute render packageName version moduleName (some info)
          = Except.ok ModuleRouteResult.notFound)
    ∧ (∀ (render : String → String) (packageName version : String),
        overviewRoute render packageName version none
          = Except.error (JsError.typeError "readme")) := by
  refine ⟨fun _ => rfl, ?_, fun _ _ _ => rfl⟩
  intro render packageName version moduleName info hfind
  simp [moduleRoute, hfind]

/-- Claim C3 witness: the amended theorem applied to a concrete
package whose docs list lacks the module `Missing`. -/
theorem not_found_handling_witness :
    moduleRoute (fun s => s) "owner/pkg" "1.0.0" "Missing" (some samplePackage)
      = Except.ok ModuleRouteResult.notFound :=
  not_found_handling.2.1 (fun s => s) "owner/pkg" "1.0.0" "Missing" samplePackage (by decide)

/-- Claim C4 counterexample: on the spec's example comment the third
node is not `ProseNode("More text.")` — the code slices the remainder
off the left-trimmed sub-block, which keeps the newline that separated
`foo` from the trailing prose, so the raw prose passed to the renderer
is `"\nMore text."` (exhibited with the identity renderer). -/
theorem docs_example_counterexample :
    prepareModuleDocumentation (fun s => s) fooBarBazModule
      ≠ [DocNode.Markdown "Intro text.",
         DocNode.Value "foo" "foo comment" "Int",
         DocNode.Markdown "More text.",
         DocNode.Value "bar" "bar comment" "Int",
         DocNode.Value "baz" "baz comment" "Int"] := by decide

/-- Claim C4 amended: on the raw comment
`"Intro text.\n@docs foo\nMore text.\n@docs bar, baz"` with `foo`,
`bar`, `baz` all present in `values`, the parser returns exactly
ProseNode("Intro text."), SymbolNode(foo), ProseNode("\nMore text."),
SymbolNode(bar), SymbolNode(baz) — the interleaved prose keeps the
newline that preceded it — with no trailing prose node after `baz`,
for every renderer. -/
theorem docs_example_amended (render : String → String) :
    prepareModuleDocumentation render fooBarBazModule
      = [DocNode.Markdown (render "Intro text."),
         DocNode.Value "foo" (render "foo comment") "Int",
         DocNode.Markdown (render "\nMore text."),
         DocNode.Value "bar" (render "bar comment") "Int",
         DocNode.Value "baz" (render "baz comment") "Int"] := rfl

/-- Claim C5: a sub-block that is empty after trimming contributes only
the JS `undefined` placeholder — no prose or symbol node — to the
output sequence (provided no symbol is named by the empty string); a
symbol-name reference that resolves in none of the four tables yields
the `undefined` hole rather than a node, and a sub-block led by such a
reference contains no symbol node at all.  All three facts are about
total functions: nothing is escalated to an error. -/
theorem hole_cases_emit_no_nodes (render : String → String) (m : ModuleInfo) :
    (∀ block : List Char, trimL block = [] → unresolvedIn m "" = true →
      processSubBlock render m block = [DocNode.undef])
    ∧ (∀ name : String, unresolvedIn m name = true →
      constructValue render m name = DocNode.undef)
    ∧ (∀ (block w : List Char) (ws : List (List Char)),
        splitWsL (trimL block) = w :: ws → unresolvedIn m (String.mk w) = true →
        ∀ e ∈ processSubBlock render m block, e.isSymbolNode = false) := by
  refine ⟨?_, fun name h => constructValue_unresolved render m name h, ?_⟩
  · intro block ht h0
    have hsw : splitWsL (trimL block) = [[]] := by rw [ht]; rfl
    have hmk : String.mk ([] : List Char) = "" := rfl
    simp [processSubBlock, hsw, hmk, constructValue_unresolved render m "" h0]
  · intro block w ws hs hu e he
    have hcv := constructValue_unresolved render m (String.mk w) hu
    simp only [processSubBlock, hs, hcv] at he
    cases hws : ws.isEmpty <;> simp [hws] at he
    · rcases he with rfl | rfl <;> rfl
    · subst he; rfl

/-- Claim C5 witness: the theorem applied to a whitespace-only
sub-block and to the unresolved name `nope` on the concrete fixture. -/
theorem hole_cases_emit_no_nodes_witness :
    processSubBlock (fun s => s) fooBarBazModule "   ".data = [DocNode.undef]
    ∧ constructValue (fun s => s) fooBarBazModule "nope" = DocNode.undef :=
  ⟨(hole_cases_emit_no_nodes (fun s => s) fooBarBazModule).1 "   ".data (by decide) (by decide),
   (hole_cases_emit_no_nodes (fun s => s) fooBarBazModule).2.1 "nope" (by decide)⟩

/-- Claim C6: for every raw comment the parser output begins with
exactly one prose node rendering the intro (the segment before the
first `"\n@docs"` delimiter, possibly empty) — the entry after it, if
any, is never a prose node — and when the comment contains no
delimiter at all the output is exactly that single prose node carrying
the whole input. -/
theorem doc_body_intro_first (render : String → String) (m : ModuleInfo) :
    ∃ rest,
      prepareModuleDocumentation render m
          = DocNode.Markdown (render (String.mk (splitOnL docsSep m.comment.data).headI)) :: rest
        ∧ (∀ e, rest.head? = some e → e.isProse = false)
        ∧ (containsSeq docsSep m.comment.data = false →
            rest = [] ∧ (splitOnL docsSep m.comment.data).headI = m.comment.data) := by
  cases hds : splitOnL docsSep m.comment.data with
  | nil => exact absurd hds (splitOnL_ne_nil _ _)
  | cons intr blocks =>
    refine ⟨(blocks.flatMap fun p => splitOnL [','] p).flatMap (processSubBlock render m),
      ?_, ?_, ?_⟩
    · simp [prepareModuleDocumentation, hds]
    · intro e he
      cases blocks with
      | nil => simp at he
      | cons b bs =>
        cases hcb : splitOnL [','] b with
        | nil => exact absurd hcb (splitOnL_ne_nil _ _)
        | cons c cs =>
          obtain ⟨w, ws, hsw, hform⟩ := processSubBlock_shape render m c
          have hparts : ((b :: bs).flatMap fun p => splitOnL [','] p).flatMap
                (processSubBlock render m)
              = processSubBlock render m c
                ++ ((cs ++ bs.flatMap fun p => splitOnL [','] p).flatMap
                    (processSubBlock render m)) := by
            simp [List.flatMap_cons, hcb]
          rw [hparts] at he
          rcases hform with hf | hf <;> rw [hf] at he <;> simp at he <;> rw [← he] <;>
            exact constructValue_not_prose render m (String.mk w)
    · intro hno
      have h1 : splitOnL docsSep m.comment.data = [m.comment.data] := by
        have h2 := splitOnAux_no_occurrence docsSep m.comment.data hno m.comment.data.length []
        simpa [splitOnL] using h2
      rw [h1] at hds
      injection hds with hd1 hd2
      subst hd1
      constructor
      · rw [← hd2]
        rfl
      · rfl

/-- Claim C6 witness: the theorem applied to a module whose comment has
no `"\n@docs"` delimiter, evaluated with the identity renderer. -/
theorem doc_body_intro_first_witness :
    prepareModuleDocumentation (fun s => s) plainModule
      = [DocNode.Markdown "just prose, no directives"] := by
  obtain ⟨rest, h1, _, h3⟩ := doc_body_intro_first (fun s => s) plainModule
  obtain ⟨hrest, hintro⟩ := h3 (by decide)
  rw [h1, hrest, hintro]
  rfl

/-- Claim C7: `constructValue` searches `values`, then `binops`, then
`unions`, then `aliases`, in that fixed order, returning the tagged
node of the first record whose `name` field equals the query exactly —
it coincides with the spec-side resolver that searches the four tables
laid out in that order — and when `values` and `binops` both contain
the name, the `values` record wins. -/
theorem symbol_resolution_first_match :
    (∀ (render : String → String) (m : ModuleInfo) (name : String),
      constructValue render m name = symbolResolverSpec render m name)
    ∧ (∀ render : String → String,
      constructValue render dupModule "both"
        = DocNode.Value "both" (render "from values") "VType") := by
  refine ⟨?_, fun _ => rfl⟩
  intro render m name
  simp only [symbolResolverSpec, List.find?_append,
    find?_map_nodeName (fun d => DocNode.Value d.name (render d.comment) d.type)
      (fun d => d.name) (fun d => rfl) m.values name,
    find?_map_nodeName (fun d => DocNode.Binop d.name (render d.comment) d.type)
      (fun d => d.name) (fun d => rfl) m.binops name,
    find?_map_nodeName (fun d => DocNode.Union d.name (render d.comment) d.args d.tags)
      (fun d => d.name) (fun d => rfl) m.unions name,
    find?_map_nodeName (fun d => DocNode.Alias d.name (render d.comment) d.args d.type)
      (fun d => d.name) (fun d => rfl) m.aliases name]
  cases hv : m.values.find? (fun a => a.name == name) with
  | some d =>
    have hd : d.name = name := by simpa using List.find?_some hv
    simp [constructValue, findByName, hv, Option.or, hd]
  | none =>
    cases hb : m.binops.find? (fun a => a.name == name) with
    | some d =>
      have hd : d.name = name := by simpa using List.find?_some hb
      simp [constructValue, findByName, hv, hb, Option.or, hd]
    | none =>
      cases hu : m.unions.find? (fun a => a.name == name) with
      | some d =>
        have hd : d.name = name := by simpa using List.find?_some hu
        simp [constructValue, findByName, hv, hb, hu, Option.or, hd]
      | none =>
        cases ha : m.aliases.find? (fun a => a.name == name) with
        | some d =>
          have hd : d.name = name := by simpa using List.find?_some ha
          simp [constructValue, findByName, hv, hb, hu, ha, Option.or, hd]
        | none =>
          simp [constructValue, findByName, hv, hb, hu, ha, Option.or]

/-- Claim C8: a flat `exposed-modules` list normalizes to the single
group keyed by the empty string, each entry a `ModuleLink` whose link
percent-encodes the package name, the version and the module name
independently; on `["A.B", "C"]` (package `owner/pkg`, version
`1.0.0`) the two links are produced with the `/` of the package name
encoded to `%2F`. -/
theorem flat_modules_single_group :
    (∀ (packageName version : String) (modules : List String),
      prepareExposedModulesView packageName version (ExposedModules.flat modules)
        = [("", modules.map fun moduleName =>
            { name := moduleName
              link := "/package/" ++ encodeURIComponent packageName ++ "/version/"
                ++ encodeURIComponent version ++ "/module/"
                ++ encodeURIComponent moduleName })])
    ∧ prepareExposedModulesView "owner/pkg" "1.0.0" (ExposedModules.flat ["A.B", "C"])
        = [("", [⟨"A.B", "/package/owner%2Fpkg/version/1.0.0/module/A.B"⟩,
                 ⟨"C", "/package/owner%2Fpkg/version/1.0.0/module/C"⟩])] :=
  ⟨fun _ _ _ => rfl, by decide⟩

/-- Claim C9: normalizing a mapping-form `exposed-modules` input
preserves the order of groups and the order of module names within
each group exactly — erasing the links recovers the input verbatim —
illustrated on `{"Core": ["A"], "Extra": ["B", "C"]}`. -/
theorem grouped_modules_preserve_order :
    (∀ (packageName version : String) (groups : List (String × List String)),
      (prepareExposedModulesView packageName version (ExposedModules.grouped groups)).map
        (fun g => (g.1, g.2.map ModuleLink.name)) = groups)
    ∧ prepareExposedModulesView "owner/pkg" "1.0.0"
        (ExposedModules.grouped [("Core", ["A"]), ("Extra", ["B", "C"])])
      = [("Core", [⟨"A", "/package/owner%2Fpkg/version/1.0.0/module/A"⟩]),
         ("Extra", [⟨"B", "/package/owner%2Fpkg/version/1.0.0/module/B"⟩,
                    ⟨"C", "/package/owner%2Fpkg/version/1.0.0/module/C"⟩])] := by
  constructor
  · intro packageName version groups
    simp [prepareExposedModulesView, prepareModuleForView, List.map_map, Function.comp_def]
  · decide

/-- Claim C10: a non-empty version list containing the unparsable
string `"silly-version"` makes the `/:package` route throw the
`TypeError: Invalid Version` of `semver.rcompare` during the sort, so
the lookup neither redirects to a latest version nor answers 404. -/
theorem unparsable_version_throws :
    packageRoute "owner/pkg" ["silly-version", "1.0.0"] = Except.error JsError.invalidVersion :=
  rfl
